import Mathlib

/-!
Shallow embedding of `src/app.py` (a Streamlit app that fuzzy-matches order
rows against a product catalog and emits an enriched order sheet plus a
derived "DR" shipment sheet), together with theorems checking the
natural-language specification against it.

Conventions of the embedding:
* Python strings are `List Char`; cell values of a spreadsheet are `PVal`
  (missing `NaN`/`None`, an integer, or a string).  Floating point does not
  occur in the modelled logic except as `SequenceMatcher.ratio()` scores,
  which are embedded as exact rationals `ℚ` (the score `2*M/T` of the
  Python documentation).
* Python's `str.isdigit` and the regex class `\d` are modelled as ASCII
  digits, and `\s` / `str.strip` as the whitespace characters that occur in
  this application's data (ASCII whitespace, NBSP and ideographic space).
* Each `re.sub(pattern, "", text)` call of the source is embedded as the
  scanner it denotes: leftmost match, replace by the empty string, continue
  scanning right after the match; a lazy `.*?` matches as few characters as
  possible and `.` never matches a newline.
-/

/-- Cell value of a pandas dataframe as used by the program: missing
(`None`/`NaN`), integer, or string. -/
inductive PVal where
  | vNone : PVal
  | vInt : ℤ → PVal
  | vStr : List Char → PVal
deriving DecidableEq, Repr

open PVal

/-- Embeds `pd.isna`. -/
def isna : PVal → Bool
  | vNone => true
  | _ => false

/-- Embeds `Series.fillna("")` on a single cell. -/
def fillnaStr (v : PVal) : PVal :=
  if isna v then vStr [] else v

/-- Whitespace for the embedded `\s`, `\s{2,}`, `\s+` and `str.strip`:
ASCII whitespace plus the two non-ASCII whitespace characters that occur in
Japanese product data (NBSP and ideographic space). -/
def isSpc (c : Char) : Bool :=
  c = ' ' || c = '\t' || c = '\n' || c = '\r' ||
  c = '\x0b' || c = '\x0c' || c = ' ' || c = '　'

/-- Helper of `subHashSet`: after a `#`, the lazy `.*?セット` finds the
earliest `セット` not separated from the `#` by a newline (`.` does not match
`\n`); returns the rest of the input after that `セット`, or `none` if the
pattern cannot match at this `#`. -/
def findSet : List Char → Option (List Char)
  | 'セ' :: 'ッ' :: 'ト' :: rest => some rest
  | '\n' :: _ => none
  | _ :: rest => findSet rest
  | [] => none

/-- Fuelled scanner of `subHashSet`; each step consumes at least one input
character, so fuel equal to the input length always suffices. -/
def subHashSetF : ℕ → List Char → List Char
  | 0, l => l
  | _, [] => []
  | fuel + 1, '#' :: rest =>
    match findSet rest with
    | some rest' => subHashSetF fuel rest'
    | none => '#' :: subHashSetF fuel rest
  | fuel + 1, c :: rest => c :: subHashSetF fuel rest

/-- Embeds `re.sub(r"#.*?セット", "", text)`. -/
def subHashSet (l : List Char) : List Char := subHashSetF l.length l

/-- Helper of `subLenticular`: the lazy `.*?】` finds the earliest `】` with
no intervening newline. -/
def findCloseLent : List Char → Option (List Char)
  | '】' :: rest => some rest
  | '\n' :: _ => none
  | _ :: rest => findCloseLent rest
  | [] => none

/-- Fuelled scanner of `subLenticular`. -/
def subLenticularF : ℕ → List Char → List Char
  | 0, l => l
  | _, [] => []
  | fuel + 1, '【' :: rest =>
    match findCloseLent rest with
    | some rest' => subLenticularF fuel rest'
    | none => '【' :: subLenticularF fuel rest
  | fuel + 1, c :: rest => c :: subLenticularF fuel rest

/-- Embeds `re.sub(r"【.*?】", "", text)`. -/
def subLenticular (l : List Char) : List Char := subLenticularF l.length l

/-- Embeds `re.sub(r"/.*?", "", text)`: at each `/` the lazy `.*?` matches
zero characters, so each match is the single character `/`. -/
def subSlash : List Char → List Char
  | [] => []
  | '/' :: rest => subSlash rest
  | c :: rest => c :: subSlash rest

/-- Embeds `re.sub("韓コスメ", "", text)` (literal pattern). -/
def subKanCosme : List Char → List Char
  | '韓' :: 'コ' :: 'ス' :: 'メ' :: rest => subKanCosme rest
  | c :: rest => c :: subKanCosme rest
  | [] => []

/-- Embeds `re.sub("口紅", "", text)` (literal pattern). -/
def subKuchibeni : List Char → List Char
  | '口' :: '紅' :: rest => subKuchibeni rest
  | c :: rest => c :: subKuchibeni rest
  | [] => []

/-- Embeds `re.sub("リップ", "", text)` (literal pattern). -/
def subLippu : List Char → List Char
  | 'リ' :: 'ッ' :: 'プ' :: rest => subLippu rest
  | c :: rest => c :: subLippu rest
  | [] => []

/-- Embeds `re.sub("アワグロウ", "", text)` (literal pattern). -/
def subAwaGuro : List Char → List Char
  | 'ア' :: 'ワ' :: 'グ' :: 'ロ' :: 'ウ' :: rest => subAwaGuro rest
  | c :: rest => c :: subAwaGuro rest
  | [] => []

/-- Embeds `re.sub(r"[\[\]【】#]", "", text)`. -/
def subBadChars : List Char → List Char
  | [] => []
  | c :: rest =>
    if c = '[' || c = ']' || c = '【' || c = '】' || c = '#'
    then subBadChars rest
    else c :: subBadChars rest

/-- Fuelled scanner of `subMultiSpc`. -/
def subMultiSpcF : ℕ → List Char → List Char
  | 0, l => l
  | _, [] => []
  | _, [c] => [c]
  | fuel + 1, c1 :: c2 :: rest =>
    if isSpc c1 && isSpc c2 then
      subMultiSpcF fuel (rest.dropWhile isSpc)
    else
      c1 :: subMultiSpcF fuel (c2 :: rest)

/-- Embeds `re.sub(r"\s{2,}", "", text)`: a greedy maximal run of at least
two whitespace characters is removed; an isolated whitespace character is
kept. -/
def subMultiSpc (l : List Char) : List Char := subMultiSpcF l.length l

/-- Embeds Python `str.strip()`. -/
def pyStrip (l : List Char) : List Char :=
  ((l.dropWhile isSpc).reverse.dropWhile isSpc).reverse

/-- Embeds `clean_text` of `src/app.py` on a string: the eight `re.sub`
passes in source order, then `strip` and removal of all remaining
whitespace (`re.sub(r"\s+", "", ...)`). -/
def cleanStr (l : List Char) : List Char :=
  ((pyStrip (subMultiSpc (subBadChars (subAwaGuro (subLippu (subKuchibeni
      (subKanCosme (subSlash (subLenticular (subHashSet l)))))))))).filter
    (fun c => !isSpc c))

/-- Embeds `clean_text` of `src/app.py` on an arbitrary cell value:
non-strings are mapped to the empty string (`isinstance` guard). -/
def clean_text : PVal → List Char
  | vStr l => cleanStr l
  | _ => []

/-- Embeds Python `str(int(n))` for an integer `n` (most-significant digit
first, with a leading minus sign for negatives). -/
def intToStr (n : ℤ) : List Char :=
  if n < 0 then '-' :: Nat.toDigits 10 n.natAbs else Nat.toDigits 10 n.toNat

/-- Embeds Python `str.zfill(w)`: left-pad with `'0'` up to width `w`,
keeping a leading sign character in front of the padding. -/
def zfill (w : ℕ) (s : List Char) : List Char :=
  if w ≤ s.length then s
  else
    match s with
    | c :: rest =>
      if c = '+' || c = '-' then c :: (List.replicate (w - s.length) '0' ++ rest)
      else List.replicate (w - s.length) '0' ++ s
    | [] => List.replicate w '0'

/-- Embeds Python `str.isdigit` for the ASCII digits (see the header note on
the digit model). -/
def pyIsDigit (s : List Char) : Bool :=
  !s.isEmpty && s.all Char.isDigit

/-- Embeds `re.fullmatch(r"\d{3}-\d{4}", s)` being a match: exactly three
digits, a hyphen, and four digits. -/
def isPostalShape (s : List Char) : Bool :=
  match s with
  | [a, b, c, h, d, e, f, g] =>
    a.isDigit && b.isDigit && c.isDigit && (h = '-') &&
    d.isDigit && e.isDigit && f.isDigit && g.isDigit
  | _ => false

/-- The sentinel `"우편번호없음"` ("no postal code") returned by
`format_postal`. -/
def noPostal : List Char := "우편번호없음".toList

/-- Embeds `format_postal` of `src/app.py`.  Branch order follows the
source: `pd.isna` check, the already-`ddd-dddd` check (strings only, on the
stripped value), integer-to-string conversion, then `zfill(7)` plus the
`isdigit`/length-7 check, and the sentinel in every other case. -/
def format_postal : PVal → List Char
  | vNone => noPostal
  | vStr s =>
    if isPostalShape (pyStrip s) then pyStrip s
    else
      let digits := zfill 7 s
      if pyIsDigit digits && digits.length = 7 then
        digits.take 3 ++ '-' :: digits.drop 3
      else noPostal
  | vInt n =>
    let digits := zfill 7 (intToStr n)
    if pyIsDigit digits && digits.length = 7 then
      digits.take 3 ++ '-' :: digits.drop 3
    else noPostal

/-!
Embedding of `difflib.SequenceMatcher(None, a, b).ratio()` as used by
`match_items`.  No junk predicate is passed, so the junk set `bjunk` is
always empty; the autojunk heuristic (for `len(b) >= 200`, elements of `b`
occurring more than `len(b) // 100 + 1` times are dropped from the `b2j`
index) is kept.  The two final `while` loops of `find_longest_match` that
extend over junk characters are no-ops with an empty junk set and are
omitted.
-/

/-- Embeds `b2j.get(c, [])` of `SequenceMatcher.__chain_b`: the increasing
list of indices of `c` in `b`, emptied for popular elements when the
autojunk heuristic applies. -/
def b2j (b : List Char) (c : Char) : List ℕ :=
  let idxs := (List.range b.length).filter (fun j => b[j]? = some c)
  if 200 ≤ b.length ∧ b.length / 100 + 1 < idxs.length then [] else idxs

/-- Equality of two optionally-present characters; `false` when either is
absent. -/
def chEq (x y : Option Char) : Bool :=
  match x, y with
  | some c, some d => c = d
  | _, _ => false

/-- Inner loop of `find_longest_match` for a fixed row `i`: walk the `b2j`
index list of `a[i]` (skipping `j < blo`, stopping at `j >= bhi`), build
`newj2len` and update the running best block.  State `(besti, bestj,
bestsize)`; `k = j2len.get(j-1, 0) + 1` with the Python `-1` lookup giving
`0` at `j = 0`. -/
def flmInner (blo bhi i : ℕ) :
    List ℕ → List (ℕ × ℕ) → List (ℕ × ℕ) → ℕ × ℕ × ℕ → List (ℕ × ℕ) × (ℕ × ℕ × ℕ)
  | [], _, newAcc, best => (newAcc, best)
  | j :: js, old, newAcc, best =>
    if j < blo then flmInner blo bhi i js old newAcc best
    else if bhi ≤ j then (newAcc, best)
    else
      let k := if j = 0 then 1 else (old.lookup (j - 1)).getD 0 + 1
      let best' := if best.2.2 < k then (i + 1 - k, j + 1 - k, k) else best
      flmInner blo bhi i js old ((j, k) :: newAcc) best'

/-- Backward extension loop of `find_longest_match` (empty junk set): while
both blocks can grow to the left and the characters match, grow.  The fuel
is an upper bound on the number of iterations; callers pass enough. -/
def extendBack (a b : List Char) (alo blo : ℕ) : ℕ → ℕ × ℕ × ℕ → ℕ × ℕ × ℕ
  | 0, st => st
  | fuel + 1, (bi, bj, bs) =>
    if alo < bi ∧ blo < bj ∧ chEq a[bi - 1]? b[bj - 1]? then
      extendBack a b alo blo fuel (bi - 1, bj - 1, bs + 1)
    else (bi, bj, bs)

/-- Forward extension loop of `find_longest_match` (empty junk set). -/
def extendFwd (a b : List Char) (ahi bhi : ℕ) : ℕ → ℕ × ℕ × ℕ → ℕ × ℕ × ℕ
  | 0, st => st
  | fuel + 1, (bi, bj, bs) =>
    if bi + bs < ahi ∧ bj + bs < bhi ∧ chEq a[bi + bs]? b[bj + bs]? then
      extendFwd a b ahi bhi fuel (bi, bj, bs + 1)
    else (bi, bj, bs)

/-- Embeds `SequenceMatcher.find_longest_match(alo, ahi, blo, bhi)` with an
empty junk set: the `j2len` dynamic-programming scan over rows
`alo <= i < ahi`, then the two character-equality extension loops. -/
def findLongestMatch (a b : List Char) (alo ahi blo bhi : ℕ) : ℕ × ℕ × ℕ :=
  let dp := (List.range' alo (ahi - alo)).foldl
    (fun (st : List (ℕ × ℕ) × (ℕ × ℕ × ℕ)) i =>
      let js := match a[i]? with
        | some c => b2j b c
        | none => []
      flmInner blo bhi i js st.1 [] st.2)
    ([], (alo, blo, 0))
  extendFwd a b ahi bhi (ahi + 1)
    (extendBack a b alo blo (ahi + 1) dp.2)

/-- Total size of the matching blocks of `get_matching_blocks` inside the
rectangle `[alo, ahi) × [blo, bhi)`: the recursion of the queue-based loop
(find the longest block, recurse on the rectangles to its left and right).
The fuel dominates the recursion depth, which is bounded by the width of
the `a`-interval; `smMatches` passes enough. -/
def matchesAux (a b : List Char) : ℕ → ℕ → ℕ → ℕ → ℕ → ℕ
  | 0, _, _, _, _ => 0
  | fuel + 1, alo, ahi, blo, bhi =>
    let r := findLongestMatch a b alo ahi blo bhi
    let i := r.1
    let j := r.2.1
    let k := r.2.2
    if k = 0 then 0
    else
      k + (if alo < i ∧ blo < j then matchesAux a b fuel alo i blo j else 0)
        + (if i + k < ahi ∧ j + k < bhi then matchesAux a b fuel (i + k) ahi (j + k) bhi else 0)

/-- Embeds `sum(size for _, _, size in SequenceMatcher(None, a, b).get_matching_blocks())`. -/
def smMatches (a b : List Char) : ℕ :=
  matchesAux a b (a.length + 1) 0 a.length 0 b.length

/-- Embeds `SequenceMatcher(None, a, b).ratio()`: `2*M / T` where `M` is
the total matched size and `T` the combined length, and `1.0` when both
strings are empty. -/
def smRatio (a b : List Char) : ℚ :=
  if a.length + b.length = 0 then 1
  else 2 * (smMatches a b : ℚ) / ((a.length + b.length : ℕ) : ℚ)

/-- Inner loop of `match_items` for one source key: scan the target keys in
order keeping the best `(score, index)`; Python state is
`best, best_idx = 0, None` and the update condition is
`score > threshold and score > best`. -/
def bestMatchAux (th : ℚ) (src : List Char) :
    List (List Char) → ℕ → ℚ → Option ℕ → Option ℕ
  | [], _, _, bi => bi
  | t :: ts, j, best, bi =>
    let score := smRatio src t
    if th < score ∧ best < score then bestMatchAux th src ts (j + 1) score (some j)
    else bestMatchAux th src ts (j + 1) best bi

/-- Embeds `match_items(src_list, tgt_list, threshold)`: the returned dict,
viewed as the partial map from source index to recorded target index
(indices outside the source range are never keys). -/
def match_items (srcs tgts : List (List Char)) (th : ℚ) : ℕ → Option ℕ :=
  fun i => if i < srcs.length then bestMatchAux th (srcs.getD i []) tgts 0 0 none else none

/-!
Row and table model.  A row of each dataframe is a structure holding the
columns the program reads or writes (column names already lowercased, as
after `df.columns.str.lower()`); every cell is a `PVal`.
-/

/-- Row of the catalog table `df_H`: listing name `출고상품명`, shopping-mall
URL, unit total price, product code `상품코드`, barcode `바코드`. -/
structure HRow where
  shipName : PVal
  shopUrl : PVal
  unitTotalPrice : PVal
  prodCode : PVal
  barcode : PVal
deriving DecidableEq, Repr

/-- Row of the order table `df_S` / `df_S_upd`, with the columns the
program touches or reads. -/
structure SRow where
  itemName : PVal
  orderNo : PVal
  itemPcs : PVal
  shopUrl : PVal
  unitTotalPrice : PVal
  serviceCode : PVal
  countryCode : PVal
  pkg : PVal
  itemOrigin : PVal
  currency : PVal
  address : PVal
  postal : PVal
deriving DecidableEq, Repr

/-- Row of the derived DR table: `ref_no (주문번호)`, `하이브 상품코드`,
`상품명`, `수량`, `바코드`. -/
structure DRRow where
  refNo : PVal
  hiveCode : PVal
  prodName : PVal
  qty : PVal
  barcode : PVal
deriving DecidableEq, Repr

/-- An all-missing order row (used as a `getD` default in theorem
statements). -/
def sNil : SRow := ⟨vNone, vNone, vNone, vNone, vNone, vNone, vNone, vNone, vNone, vNone, vNone, vNone⟩

/-- An all-missing DR row (used as a `getD` default in theorem
statements). -/
def drNil : DRRow := ⟨vNone, vNone, vNone, vNone, vNone⟩

/-- Embeds `Series.astype(str)` on one cell; pandas renders a missing value
as the string `"nan"`. -/
def pyStrOf : PVal → List Char
  | vNone => "nan".toList
  | vInt n => intToStr n
  | vStr s => s

/-- Embeds line 118-120 of the source: `order_no` is converted to text and
prefixed with `"86"` unless it already starts with `"86"`. -/
def applyOrderNo (r : SRow) : SRow :=
  let x := pyStrOf r.orderNo
  { r with orderNo := vStr (if ("86".toList).isPrefixOf x then x else "86".toList ++ x) }

/-- Indicator of a non-missing cell, as counted by `r.dropna().shape[0]`. -/
def nnz (v : PVal) : ℕ := if isna v then 0 else 1

/-- Embeds `r.dropna().shape[0]` for an order row: the number of non-missing
cells among the row's columns. -/
def rowDensity (r : SRow) : ℕ :=
  nnz r.itemName + nnz r.orderNo + nnz r.itemPcs + nnz r.shopUrl +
  nnz r.unitTotalPrice + nnz r.serviceCode + nnz r.countryCode + nnz r.pkg +
  nnz r.itemOrigin + nnz r.currency + nnz r.address + nnz r.postal

/-- One iteration of the sparse-row override loop (lines 121-130): the cell
becomes the fixed value when the row has more than one non-missing cell;
otherwise the lambda returns `r[c]`, i.e. the row is left unchanged. -/
def ovService (r : SRow) : SRow :=
  if 1 < rowDensity r then { r with serviceCode := vStr "99".toList } else r

def ovCountry (r : SRow) : SRow :=
  if 1 < rowDensity r then { r with countryCode := vStr "JP".toList } else r

def ovPkg (r : SRow) : SRow :=
  if 1 < rowDensity r then { r with pkg := vStr "1".toList } else r

def ovOrigin (r : SRow) : SRow :=
  if 1 < rowDensity r then { r with itemOrigin := vStr "KR".toList } else r

def ovCurrency (r : SRow) : SRow :=
  if 1 < rowDensity r then { r with currency := vStr "JPY".toList } else r

/-- The five override passes in source order: service code `"99"`, country
code `"JP"`, package count `"1"`, item origin `"KR"`, currency `"JPY"`.
Each pass recomputes the row's density, as the sequential `df_S_upd[col] =`
assignments of the source do. -/
def applyOverrides (r : SRow) : SRow :=
  ovCurrency (ovOrigin (ovPkg (ovCountry (ovService r))))

/-- Helper of `subSqBr`: the lazy `.*?\]` finds the earliest `]` with no
intervening newline. -/
def findCloseSq : List Char → Option (List Char)
  | ']' :: rest => some rest
  | '\n' :: _ => none
  | _ :: rest => findCloseSq rest
  | [] => none

/-- Fuelled scanner of `subSqBr`. -/
def subSqBrF : ℕ → List Char → List Char
  | 0, l => l
  | _, [] => []
  | fuel + 1, '[' :: rest =>
    match findCloseSq rest with
    | some rest' => subSqBrF fuel rest'
    | none => '[' :: subSqBrF fuel rest
  | fuel + 1, c :: rest => c :: subSqBrF fuel rest

/-- Embeds `re.sub(r"\[.*?\]", "", x)` (line 134). -/
def subSqBr (l : List Char) : List Char := subSqBrF l.length l

/-- Embeds lines 132-134: strip `[...]` groups from the consignee address
when it is a string; other values pass through. -/
def applyAddr (r : SRow) : SRow :=
  match r.address with
  | vStr s => { r with address := vStr (subSqBr s) }
  | _ => r

/-- Embeds line 137: the postal-code column is canonicalized by
`format_postal`. -/
def applyPostal (r : SRow) : SRow :=
  { r with postal := vStr (format_postal r.postal) }

/-- Applies `f i a` to each element, threading the element's index, starting
from index `n` (used to embed the `for idx, ... in mapping.items()` update
loops as whole-table maps). -/
def mapIdxFrom (f : ℕ → α → β) : ℕ → List α → List β
  | _, [] => []
  | n, a :: as => f n a :: mapIdxFrom f (n + 1) as

/-- Per-row update of the s2h propagation loop (lines 112-115): when the
row is mapped, copy the shopping-mall URL and unit total price from the
matched catalog row.  The `H[h]?` fallback arm is unreachable for mappings
produced by `match_items` (their values index the target list) and leaves
the row unchanged. -/
def sPropRow (H : List HRow) (m : ℕ → Option ℕ) (i : ℕ) (r : SRow) : SRow :=
  match m i with
  | some h =>
    match H[h]? with
    | some hr => { r with shopUrl := hr.shopUrl, unitTotalPrice := hr.unitTotalPrice }
    | none => r
  | none => r

/-- Embeds the s2h propagation loop over the whole order table. -/
def sPropagate (H : List HRow) (m : ℕ → Option ℕ) (S : List SRow) : List SRow :=
  mapIdxFrom (sPropRow H m) 0 S

/-- Embeds the DR-sheet assembly (lines 139-144): the fixed five columns,
`ref_no` / name / quantity taken from the updated order table, product code
and barcode left missing (freshly created columns are `NaN`). -/
def assembleDR (S : List SRow) : List DRRow :=
  S.map fun r => ⟨r.orderNo, vNone, r.itemName, r.itemPcs, vNone⟩

/-- Per-row update of the dr2h propagation loop (lines 147-150): when the
DR row is mapped, copy product code and barcode and overwrite the product
name with the catalog's canonical name. -/
def drPropRow (H : List HRow) (m : ℕ → Option ℕ) (i : ℕ) (d : DRRow) : DRRow :=
  match m i with
  | some h =>
    match H[h]? with
    | some hr => { d with hiveCode := hr.prodCode, barcode := hr.barcode, prodName := hr.shipName }
    | none => d
  | none => d

/-- Embeds the dr2h propagation loop over the whole DR table. -/
def drPropagate (H : List HRow) (m : ℕ → Option ℕ) (D : List DRRow) : List DRRow :=
  mapIdxFrom (drPropRow H m) 0 D

/-- Cleaned catalog names (line 109): `clean_text` over the `fillna("")`-ed
listing names. -/
def hNamesClean (H : List HRow) : List (List Char) :=
  H.map fun hr => clean_text (fillnaStr hr.shipName)

/-- Cleaned order names (line 108). -/
def sNamesClean (S : List SRow) : List (List Char) :=
  S.map fun r => clean_text (fillnaStr r.itemName)

/-- The order-to-catalog mapping `s2h` (line 110), with the default
threshold `0.3`. -/
def s2hMap (H : List HRow) (S : List SRow) : ℕ → Option ℕ :=
  match_items (sNamesClean S) (hNamesClean H) (3/10)

/-- The updated order table `df_S_upd` after lines 112-137: propagation,
order-number prefixing, the five sparse-row overrides, address bracket
stripping, postal-code canonicalization. -/
def sUpdated (H : List HRow) (S : List SRow) : List SRow :=
  ((((sPropagate H (s2hMap H S) S).map applyOrderNo).map applyOverrides).map
    applyAddr).map applyPostal

/-- Cleaned DR names (line 146). -/
def drNamesClean (D : List DRRow) : List (List Char) :=
  D.map fun d => clean_text (fillnaStr d.prodName)

/-- The DR-to-catalog mapping `dr2h` (line 146). -/
def dr2hMap (H : List HRow) (S : List SRow) : ℕ → Option ℕ :=
  match_items (drNamesClean (assembleDR (sUpdated H S))) (hNamesClean H) (3/10)

/-- The final DR table (lines 139-150). -/
def drTable (H : List HRow) (S : List SRow) : List DRRow :=
  drPropagate H (dr2hMap H S) (assembleDR (sUpdated H S))

/-- The three dataframes live in the program's (single-threaded) state. -/
structure Tables where
  dfH : List HRow
  dfS : List SRow
  dfDR : List DRRow
deriving DecidableEq, Repr

/-- The order-table propagation pass as a state transformer: only `dfS` is
assigned. -/
def sPropagatePass (t : Tables) (m : ℕ → Option ℕ) : Tables :=
  { t with dfS := sPropagate t.dfH m t.dfS }

/-- The DR-table propagation pass as a state transformer: only `dfDR` is
assigned. -/
def drPropagatePass (t : Tables) (m : ℕ → Option ℕ) : Tables :=
  { t with dfDR := drPropagate t.dfH m t.dfDR }

/-- The whole run (lines 104-150): final state of the three tables. -/
def runAll (H : List HRow) (S : List SRow) : Tables :=
  ⟨H, sUpdated H S, drTable H S⟩

/-!
Theorems checking the claims of the specification.
-/

/-- C4: postal-code canonicalizer vectors and precedence.
`format_postal(1234567) = "123-4567"`; `format_postal(123456) = "012-3456"`
(a 6-digit numeric value is zero-padded on the left before splitting);
`format_postal("123-4567") = "123-4567"` (already-formatted strings, after
trimming surrounding whitespace, are returned as-is); a missing value and a
non-numeric string both give the "no postal code" sentinel. -/
theorem format_postal_vectors :
    format_postal (vInt 1234567) = "123-4567".toList ∧
    format_postal (vInt 123456) = "012-3456".toList ∧
    format_postal (vStr "123-4567".toList) = "123-4567".toList ∧
    format_postal (vStr " 123-4567 ".toList) = "123-4567".toList ∧
    format_postal vNone = noPostal ∧
    format_postal (vStr "abcde".toList) = noPostal := by
  refine ⟨?_, ?_, ?_, ?_, ?_, ?_⟩ <;> decide

/-- C6: catalog immutability.  Both propagation passes, and the whole run,
leave the catalog table exactly as loaded; only the order-side and
derived-side tables are assigned. -/
theorem catalog_immutable :
    (∀ (t : Tables) (m : ℕ → Option ℕ), (sPropagatePass t m).dfH = t.dfH) ∧
    (∀ (t : Tables) (m : ℕ → Option ℕ), (drPropagatePass t m).dfH = t.dfH) ∧
    (∀ (H : List HRow) (S : List SRow), (runAll H S).dfH = H) :=
  ⟨fun _ _ => rfl, fun _ _ => rfl, fun _ _ => rfl⟩

/-- C8: order-number prefixer.  After conversion to text, `"86"` is
prepended exactly when the text does not already start with `"86"`; in
particular `"12345"` becomes `"8612345"` and `"8612345"` is unchanged. -/
theorem order_no_spec :
    (∀ r : SRow,
      (("86".toList).isPrefixOf (pyStrOf r.orderNo) →
        (applyOrderNo r).orderNo = vStr (pyStrOf r.orderNo)) ∧
      (¬ ("86".toList).isPrefixOf (pyStrOf r.orderNo) →
        (applyOrderNo r).orderNo = vStr ("86".toList ++ pyStrOf r.orderNo))) ∧
    (applyOrderNo { sNil with orderNo := vStr "12345".toList }).orderNo
      = vStr "8612345".toList ∧
    (applyOrderNo { sNil with orderNo := vStr "8612345".toList }).orderNo
      = vStr "8612345".toList := by
  refine ⟨fun r => ⟨fun h => ?_, fun h => ?_⟩, by decide, by decide⟩
  · simp only [applyOrderNo, if_pos h]
  · simp only [applyOrderNo, if_neg h]

/-- Witness for C8 at the concrete input `"12345"`: the prefix test fails
and the theorem yields the prefixed value. -/
theorem order_no_spec_witness :
    ¬ ("86".toList).isPrefixOf (pyStrOf (vStr "12345".toList)) ∧
    (applyOrderNo { sNil with orderNo := vStr "12345".toList }).orderNo
      = vStr "8612345".toList :=
  ⟨by decide, (order_no_spec.1 { sNil with orderNo := vStr "12345".toList }).2 (by decide)⟩

theorem shape_of_seven :
    ∀ d : List Char, pyIsDigit d = true → d.length = 7 →
      isPostalShape (d.take 3 ++ '-' :: d.drop 3) = true := by
  intro d hd hl
  rcases d with _ | ⟨a, _ | ⟨b, _ | ⟨c, _ | ⟨e, _ | ⟨f, _ | ⟨g, _ | ⟨i, _ | ⟨j, rest⟩⟩⟩⟩⟩⟩⟩⟩ <;>
    simp_all [pyIsDigit, isPostalShape]

/-- C9: output-shape invariant of `format_postal`.  For every input value
the result is either the "no postal code" sentinel or exactly three digits,
a hyphen, and four digits; the function is total. -/
theorem format_postal_shape (v : PVal) :
    format_postal v = noPostal ∨ isPostalShape (format_postal v) = true := by
  cases v with
  | vNone => left; rfl
  | vInt n =>
    simp only [format_postal]
    split
    · next hc =>
      right
      have hc' : pyIsDigit (zfill 7 (intToStr n)) = true ∧ (zfill 7 (intToStr n)).length = 7 := by
        simpa using hc
      exact shape_of_seven _ hc'.1 hc'.2
    · left; rfl
  | vStr s =>
    simp only [format_postal]
    by_cases hps : isPostalShape (pyStrip s) = true
    · rw [if_pos hps]; right; exact hps
    · rw [if_neg hps]
      split
      · next hc =>
        right
        have hc' : pyIsDigit (zfill 7 s) = true ∧ (zfill 7 s).length = 7 := by
          simpa using hc
        exact shape_of_seven _ hc'.1 hc'.2
      · left; rfl

theorem subKanCosme_subset : ∀ l : List Char, subKanCosme l ⊆ l := by
  intro l
  induction l using subKanCosme.induct with
  | case1 rest ih =>
    intro c hc
    rw [subKanCosme] at hc
    simp only [List.mem_cons]
    exact Or.inr (Or.inr (Or.inr (Or.inr (ih hc))))
  | case2 c rest h1 ih =>
    intro x hx
    rw [subKanCosme] at hx
    · rcases List.mem_cons.mp hx with h | h
      · simp [h]
      · exact List.mem_cons_of_mem _ (ih h)
    · exact h1
  | case3 => intro x hx; simp [subKanCosme] at hx

theorem subKuchibeni_subset : ∀ l : List Char, subKuchibeni l ⊆ l := by
  intro l
  induction l using subKuchibeni.induct with
  | case1 rest ih =>
    intro c hc
    rw [subKuchibeni] at hc
    simp only [List.mem_cons]
    exact Or.inr (Or.inr (ih hc))
  | case2 c rest h1 ih =>
    intro x hx
    rw [subKuchibeni] at hx
    · rcases List.mem_cons.mp hx with h | h
      · simp [h]
      · exact List.mem_cons_of_mem _ (ih h)
    · exact h1
  | case3 => intro x hx; simp [subKuchibeni] at hx

theorem subLippu_subset : ∀ l : List Char, subLippu l ⊆ l := by
  intro l
  induction l using subLippu.induct with
  | case1 rest ih =>
    intro c hc
    rw [subLippu] at hc
    simp only [List.mem_cons]
    exact Or.inr (Or.inr (Or.inr (ih hc)))
  | case2 c rest h1 ih =>
    intro x hx
    rw [subLippu] at hx
    · rcases List.mem_cons.mp hx with h | h
      · simp [h]
      · exact List.mem_cons_of_mem _ (ih h)
    · exact h1
  | case3 => intro x hx; simp [subLippu] at hx

theorem subAwaGuro_subset : ∀ l : List Char, subAwaGuro l ⊆ l := by
  intro l
  induction l using subAwaGuro.induct with
  | case1 rest ih =>
    intro c hc
    rw [subAwaGuro] at hc
    simp only [List.mem_cons]
    exact Or.inr (Or.inr (Or.inr (Or.inr (Or.inr (ih hc)))))
  | case2 c rest h1 ih =>
    intro x hx
    rw [subAwaGuro] at hx
    · rcases List.mem_cons.mp hx with h | h
      · simp [h]
      · exact List.mem_cons_of_mem _ (ih h)
    · exact h1
  | case3 => intro x hx; simp [subAwaGuro] at hx

theorem subBadChars_subset : ∀ l : List Char, subBadChars l ⊆ l := by
  intro l
  induction l with
  | nil => intro x hx; simp [subBadChars] at hx
  | cons c rest ih =>
    intro x hx
    rw [subBadChars] at hx
    split at hx
    · exact List.mem_cons_of_mem _ (ih hx)
    · rcases List.mem_cons.mp hx with h | h
      · simp [h]
      · exact List.mem_cons_of_mem _ (ih h)

theorem subMultiSpcF_subset : ∀ (fuel : ℕ) (l : List Char), subMultiSpcF fuel l ⊆ l := by
  intro fuel
  induction fuel with
  | zero => intro l x hx; simpa [subMultiSpcF] using hx
  | succ f ih =>
    intro l x hx
    match l with
    | [] => simp [subMultiSpcF] at hx
    | [c] => simpa [subMultiSpcF] using hx
    | c1 :: c2 :: rest =>
      rw [subMultiSpcF] at hx
      split at hx
      · have := (List.dropWhile_sublist (l := rest) isSpc).subset (ih _ hx)
        simp [this]
      · rcases List.mem_cons.mp hx with h | h
        · simp [h]
        · exact List.mem_cons_of_mem _ (ih _ h)

theorem subMultiSpc_subset (l : List Char) : subMultiSpc l ⊆ l :=
  subMultiSpcF_subset l.length l

theorem pyStrip_subset (l : List Char) : pyStrip l ⊆ l := by
  intro x hx
  simp only [pyStrip, List.mem_reverse] at hx
  have h1 := (List.dropWhile_sublist (l := (l.dropWhile isSpc).reverse) isSpc).subset hx
  simp only [List.mem_reverse] at h1
  exact (List.dropWhile_sublist (l := l) isSpc).subset h1

theorem subSlash_no_slash : ∀ l : List Char, '/' ∉ subSlash l := by
  intro l
  induction l using subSlash.induct with
  | case1 => simp [subSlash]
  | case2 rest ih => rw [subSlash]; exact ih
  | case3 c rest h1 ih =>
    rw [subSlash]
    · intro hx
      rcases List.mem_cons.mp hx with h | h
      · exact h1 h.symm
      · exact ih h
    · exact h1

/-- C10: slash behaviour of `clean_text`.  The lazy `/.*?` pass removes
exactly the `/` characters themselves (it equals a filter dropping `/`),
and no `clean_text` output contains a `/`. -/
theorem clean_text_slash :
    (∀ l : List Char, subSlash l = l.filter (fun c => c ≠ '/')) ∧
    (∀ v : PVal, '/' ∉ clean_text v) := by
  constructor
  · intro l
    induction l using subSlash.induct with
    | case1 => simp [subSlash]
    | case2 rest ih => simpa [subSlash] using ih
    | case3 c rest h1 ih =>
      rw [subSlash]
      · rw [ih, List.filter_cons]
        have : (decide ¬c = '/') = true := by simpa using fun h => h1 h
        simp [this]
      · exact h1
  · intro v hx
    cases v with
    | vNone => simp [clean_text] at hx
    | vInt n => simp [clean_text] at hx
    | vStr l =>
      simp only [clean_text, cleanStr, List.mem_filter] at hx
      have h2 := pyStrip_subset _ hx.1
      have h3 := subMultiSpc_subset _ h2
      have h4 := subBadChars_subset _ h3
      have h5 := subAwaGuro_subset _ h4
      have h6 := subLippu_subset _ h5
      have h7 := subKuchibeni_subset _ h6
      have h8 := subKanCosme_subset _ h7
      exact subSlash_no_slash _ h8

theorem nnz_le_one (v : PVal) : nnz v ≤ 1 := by
  cases v <;> simp [nnz, isna]

theorem nnz_vStr (s : List Char) : nnz (vStr s) = 1 := rfl

theorem dens_serviceCode (r : SRow) (s : List Char) (h : 1 < rowDensity r) :
    1 < rowDensity { r with serviceCode := vStr s } := by
  have h1 := nnz_le_one r.serviceCode
  simp only [rowDensity, nnz_vStr] at *
  omega

theorem dens_countryCode (r : SRow) (s : List Char) (h : 1 < rowDensity r) :
    1 < rowDensity { r with countryCode := vStr s } := by
  have h1 := nnz_le_one r.countryCode
  simp only [rowDensity, nnz_vStr] at *
  omega

theorem dens_pkg (r : SRow) (s : List Char) (h : 1 < rowDensity r) :
    1 < rowDensity { r with pkg := vStr s } := by
  have h1 := nnz_le_one r.pkg
  simp only [rowDensity, nnz_vStr] at *
  omega

theorem dens_itemOrigin (r : SRow) (s : List Char) (h : 1 < rowDensity r) :
    1 < rowDensity { r with itemOrigin := vStr s } := by
  have h1 := nnz_le_one r.itemOrigin
  simp only [rowDensity, nnz_vStr] at *
  omega

/-- C5: sparse-row override.  Each of the five fixed fields ends up
overwritten with its fixed value exactly when the row has more than one
non-missing cell, and keeps its prior value otherwise; the test is the
row's density, not the field's own missingness. -/
theorem sparse_override_spec (r : SRow) :
    ((applyOverrides r).serviceCode
      = if 1 < rowDensity r then vStr "99".toList else r.serviceCode) ∧
    ((applyOverrides r).countryCode
      = if 1 < rowDensity r then vStr "JP".toList else r.countryCode) ∧
    ((applyOverrides r).pkg
      = if 1 < rowDensity r then vStr "1".toList else r.pkg) ∧
    ((applyOverrides r).itemOrigin
      = if 1 < rowDensity r then vStr "KR".toList else r.itemOrigin) ∧
    ((applyOverrides r).currency
      = if 1 < rowDensity r then vStr "JPY".toList else r.currency) := by
  obtain ⟨a1, a2, a3, a4, a5, a6, a7, a8, a9, a10, a11, a12⟩ := r
  by_cases hd : 1 < rowDensity ⟨a1, a2, a3, a4, a5, a6, a7, a8, a9, a10, a11, a12⟩
  · have h1 := dens_serviceCode _ "99".toList hd
    have h2 := dens_countryCode _ "JP".toList h1
    have h3 := dens_pkg _ "1".toList h2
    have h4 := dens_itemOrigin _ "KR".toList h3
    rw [applyOverrides, ovService, if_pos hd, ovCountry, if_pos h1, ovPkg, if_pos h2,
      ovOrigin, if_pos h3, ovCurrency, if_pos h4]
    simp [hd]
  · simp [applyOverrides, ovService, ovCountry, ovPkg, ovOrigin, ovCurrency, hd]

/-- Loop invariant of the inner scan of `match_items`: relative to the full
target list, the accumulator `(best, best_idx)` after the first `n` targets
determines the final result.  The `none` state carries `best = 0` (Python's
initialization); a `some` state records the first index attaining the
running maximum, which exceeds the threshold. -/
theorem bestMatchAux_invariant (th : ℚ) (src : List Char) (tgts : List (List Char)) :
    ∀ (ts : List (List Char)) (n : ℕ) (best : ℚ) (bi : Option ℕ),
      tgts.drop n = ts →
      (bi = none → best = 0 ∧
        ∀ j, j < n → ¬(th < smRatio src (tgts.getD j []) ∧ 0 < smRatio src (tgts.getD j []))) →
      (∀ j0, bi = some j0 → j0 < n ∧ j0 < tgts.length ∧
        smRatio src (tgts.getD j0 []) = best ∧ th < best ∧
        (∀ j, j < j0 → smRatio src (tgts.getD j []) < best) ∧
        (∀ j, j < n → smRatio src (tgts.getD j []) ≤ best)) →
      ((bestMatchAux th src ts n best bi = none →
          ∀ j, j < tgts.length →
            ¬(th < smRatio src (tgts.getD j []) ∧ 0 < smRatio src (tgts.getD j []))) ∧
       (∀ j0, bestMatchAux th src ts n best bi = some j0 →
          j0 < tgts.length ∧ th < smRatio src (tgts.getD j0 []) ∧
          (∀ j, j < j0 → smRatio src (tgts.getD j []) < smRatio src (tgts.getD j0 [])) ∧
          (∀ j, j < tgts.length →
            smRatio src (tgts.getD j []) ≤ smRatio src (tgts.getD j0 [])))) := by
  intro ts
  induction ts with
  | nil =>
    intro n best bi hdrop hnone hsome
    have hlen : tgts.length ≤ n := List.drop_eq_nil_iff.mp hdrop
    constructor
    · intro hres j hj
      rw [bestMatchAux] at hres
      exact (hnone hres).2 j (lt_of_lt_of_le hj hlen)
    · intro j0 hres
      rw [bestMatchAux] at hres
      obtain ⟨-, hj0len, heq, hth, hlt, hle⟩ := hsome j0 hres
      refine ⟨hj0len, by rw [heq]; exact hth, fun j hj => by rw [heq]; exact hlt j hj,
        fun j hj => by rw [heq]; exact hle j (lt_of_lt_of_le hj hlen)⟩
  | cons t ts' ih =>
    intro n best bi hdrop hnone hsome
    have hn_elem : tgts[n]? = some t := by
      have h0 : (tgts.drop n)[0]? = some t := by rw [hdrop]; simp
      rw [List.getElem?_drop] at h0
      simpa using h0
    have hn_lt : n < tgts.length := by
      rcases List.getElem?_eq_some.mp hn_elem with ⟨h, -⟩
      exact h
    have hget : tgts.getD n [] = t := by
      simp [List.getD, hn_elem]
    have hdrop' : tgts.drop (n + 1) = ts' := by
      have ht : (tgts.drop n).tail = ts' := by rw [hdrop]; rfl
      rwa [List.tail_drop] at ht
    rw [bestMatchAux]
    by_cases hcond : th < smRatio src t ∧ best < smRatio src t
    · rw [if_pos hcond]
      apply ih (n + 1) (smRatio src t) (some n) hdrop'
      · intro h; cases h
      · intro j0 h
        have hj0 : j0 = n := by injection h with h'; exact h'.symm
        rw [hj0]
        have hltn : ∀ j, j < n → smRatio src (tgts.getD j []) < smRatio src t := by
          intro j hj
          rcases hbi : bi with _ | jp
          · obtain ⟨hb0, hno⟩ := hnone hbi
            have hs0 : (0 : ℚ) < smRatio src t := by
              have hc2 := hcond.2
              rwa [hb0] at hc2
            rcases not_and_or.mp (hno j hj) with h3 | h3
            · exact lt_of_le_of_lt (le_of_not_lt h3) hcond.1
            · exact lt_of_le_of_lt (le_of_not_lt h3) hs0
          · obtain ⟨-, -, -, -, -, hle⟩ := hsome jp hbi
            exact lt_of_le_of_lt (hle j hj) hcond.2
        refine ⟨Nat.lt_succ_self n, hn_lt, by rw [hget], hcond.1, hltn, ?_⟩
        intro j hj
        rcases Nat.lt_succ_iff_lt_or_eq.mp hj with h4 | h4
        · exact le_of_lt (hltn j h4)
        · subst h4
          rw [hget]
    · rw [if_neg hcond]
      apply ih (n + 1) best bi hdrop'
      · intro hbi
        obtain ⟨hb0, hno⟩ := hnone hbi
        refine ⟨hb0, fun j hj => ?_⟩
        rcases Nat.lt_succ_iff_lt_or_eq.mp hj with h4 | h4
        · exact hno j h4
        · subst h4
          rw [hget]
          intro hcc
          exact hcond ⟨hcc.1, by rw [hb0]; exact hcc.2⟩
      · intro j0 hbi
        obtain ⟨hjn, hj0len, heq, hth, hlt, hle⟩ := hsome j0 hbi
        refine ⟨Nat.lt_succ_of_lt hjn, hj0len, heq, hth, hlt, fun j hj => ?_⟩
        rcases Nat.lt_succ_iff_lt_or_eq.mp hj with h4 | h4
        · exact hle j h4
        · subst h4
          rw [hget]
          rcases not_and_or.mp hcond with h3 | h3
          · exact le_trans (le_of_not_lt h3) (le_of_lt hth)
          · exact le_of_not_lt h3

theorem three_tenths_pos : (0 : ℚ) < 3/10 := by norm_num

theorem smMatches_nil (t : List Char) : smMatches [] t = 0 := rfl

theorem smRatio_nil (t : List Char) : smRatio [] t = if t.length = 0 then 1 else 0 := by
  by_cases h : t.length = 0
  · simp [smRatio, h]
  · simp [smRatio, h, smMatches_nil]

/-- C2 (amended: for nonnegative thresholds, in particular the default
`0.3`): `match_items` records an entry for source index `i` iff some
target's ratio strictly exceeds the threshold; the recorded value is the
first-encountered target index attaining the maximum ratio (every earlier
target scores strictly less, every target scores at most it); and each
source index has at most one entry. -/
theorem match_items_spec (srcs tgts : List (List Char)) (th : ℚ) (hth : 0 ≤ th)
    (i : ℕ) (hi : i < srcs.length) :
    ((match_items srcs tgts th i).isSome ↔
      ∃ j, j < tgts.length ∧ th < smRatio (srcs.getD i []) (tgts.getD j [])) ∧
    (∀ j0, match_items srcs tgts th i = some j0 →
      j0 < tgts.length ∧ th < smRatio (srcs.getD i []) (tgts.getD j0 []) ∧
      (∀ j, j < j0 → smRatio (srcs.getD i []) (tgts.getD j []) <
        smRatio (srcs.getD i []) (tgts.getD j0 [])) ∧
      (∀ j, j < tgts.length → smRatio (srcs.getD i []) (tgts.getD j []) ≤
        smRatio (srcs.getD i []) (tgts.getD j0 []))) ∧
    (∀ j0 j1, match_items srcs tgts th i = some j0 →
      match_items srcs tgts th i = some j1 → j0 = j1) := by
  have hmain := bestMatchAux_invariant th (srcs.getD i []) tgts tgts 0 0 none rfl
    (fun _ => ⟨rfl, fun j hj => absurd hj (Nat.not_lt_zero j)⟩)
    (fun j0 h => nomatch h)
  have hmi : match_items srcs tgts th i = bestMatchAux th (srcs.getD i []) tgts 0 0 none := by
    simp [match_items, hi]
  refine ⟨⟨?_, ?_⟩, ?_, ?_⟩
  · intro hs
    rcases Option.isSome_iff_exists.mp hs with ⟨j0, hj0⟩
    rw [hmi] at hj0
    obtain ⟨hlen, hth', -, -⟩ := hmain.2 j0 hj0
    exact ⟨j0, hlen, hth'⟩
  · rintro ⟨j, hj, hjth⟩
    by_contra hns
    have hnone : match_items srcs tgts th i = none := by
      cases hmm : match_items srcs tgts th i with
      | none => rfl
      | some j1 => rw [hmm] at hns; simp at hns
    rw [hmi] at hnone
    exact (hmain.1 hnone j hj) ⟨hjth, lt_of_le_of_lt hth hjth⟩
  · intro j0 h
    rw [hmi] at h
    exact hmain.2 j0 h
  · intro j0 j1 h0 h1
    rw [h0] at h1
    exact Option.some.inj h1

/-- Witness for the amended C2 at the concrete input `(["a"], ["a"], 0.3)`:
the hypotheses `0 ≤ 0.3` and `0 < 1` are discharged and the theorem is
instantiated. -/
theorem match_items_spec_witness :
    (0 : ℚ) ≤ 3/10 ∧ 0 < ([['a']] : List (List Char)).length ∧
    (((match_items [['a']] [['a']] (3/10) 0).isSome ↔
      ∃ j, j < ([['a']] : List (List Char)).length ∧
        (3/10 : ℚ) < smRatio (([['a']] : List (List Char)).getD 0 [])
          (([['a']] : List (List Char)).getD j [])) ∧
    (∀ j0, match_items [['a']] [['a']] (3/10) 0 = some j0 →
      j0 < ([['a']] : List (List Char)).length ∧
      (3/10 : ℚ) < smRatio (([['a']] : List (List Char)).getD 0 [])
        (([['a']] : List (List Char)).getD j0 []) ∧
      (∀ j, j < j0 → smRatio (([['a']] : List (List Char)).getD 0 [])
          (([['a']] : List (List Char)).getD j []) <
        smRatio (([['a']] : List (List Char)).getD 0 [])
          (([['a']] : List (List Char)).getD j0 [])) ∧
      (∀ j, j < ([['a']] : List (List Char)).length →
        smRatio (([['a']] : List (List Char)).getD 0 [])
          (([['a']] : List (List Char)).getD j []) ≤
        smRatio (([['a']] : List (List Char)).getD 0 [])
          (([['a']] : List (List Char)).getD j0 []))) ∧
    (∀ j0 j1, match_items [['a']] [['a']] (3/10) 0 = some j0 →
      match_items [['a']] [['a']] (3/10) 0 = some j1 → j0 = j1)) :=
  ⟨le_of_lt three_tenths_pos, by decide,
    match_items_spec [['a']] [['a']] (3/10) (le_of_lt three_tenths_pos) 0 (by decide)⟩

theorem smRatio_ab : smRatio ['a'] ['b'] = 0 := by
  have h : smMatches ['a'] ['b'] = 0 := by decide
  simp [smRatio, h]

/-- Counterexample to C2 as stated ("for every threshold"): at the negative
threshold `-1`, the ratio of `"a"` against the sole target `"b"` is `0`,
which strictly exceeds the threshold, yet no entry is recorded, because
Python's running `best` starts at `0` and the update also requires
`score > best`. -/
theorem match_items_threshold_cex :
    (-1 : ℚ) < smRatio (([['a']] : List (List Char)).getD 0 [])
      (([['b']] : List (List Char)).getD 0 []) ∧
    0 < ([['b']] : List (List Char)).length ∧
    match_items [['a']] [['b']] (-1) 0 = none := by
  refine ⟨?_, by decide, ?_⟩
  · show (-1 : ℚ) < smRatio ['a'] ['b']
    rw [smRatio_ab]; norm_num
  · have h1 : match_items [['a']] [['b']] (-1) 0
        = bestMatchAux (-1) ['a'] [['b']] 0 0 none := by
      simp [match_items]
    rw [h1]
    rw [show bestMatchAux (-1 : ℚ) ['a'] [['b']] 0 0 none
        = if (-1 : ℚ) < smRatio ['a'] ['b'] ∧ (0 : ℚ) < smRatio ['a'] ['b'] then
            bestMatchAux (-1) ['a'] [] 1 (smRatio ['a'] ['b']) (some 0)
          else bestMatchAux (-1) ['a'] [] 1 0 none from rfl]
    rw [smRatio_ab]
    norm_num [bestMatchAux]

/-- C3: empty-vs-empty matching.  The ratio of two empty keys is `1.0`,
strictly above the default threshold `0.3`, so a source row whose cleaned
key is empty is mapped to the first target index with an empty cleaned
key. -/
theorem empty_key_match (srcs tgts : List (List Char)) (i j0 : ℕ)
    (hi : i < srcs.length) (hsrc : srcs.getD i [] = [])
    (hj0 : j0 < tgts.length) (hj0e : tgts.getD j0 [] = [])
    (hfirst : ∀ j, j < j0 → tgts.getD j [] ≠ []) :
    match_items srcs tgts (3/10) i = some j0 := by
  have hmain := bestMatchAux_invariant (3/10) (srcs.getD i []) tgts tgts 0 0 none rfl
    (fun _ => ⟨rfl, fun j hj => absurd hj (Nat.not_lt_zero j)⟩)
    (fun j' h => nomatch h)
  have hmi : match_items srcs tgts (3/10) i = bestMatchAux (3/10) (srcs.getD i []) tgts 0 0 none := by
    simp [match_items, hi]
  cases hres : match_items srcs tgts (3/10) i with
  | none =>
    exfalso
    rw [hmi] at hres
    have hcontra := hmain.1 hres j0 hj0
    rw [hsrc, hj0e, smRatio_nil] at hcontra
    simp only [List.length_nil, if_pos] at hcontra
    exact hcontra (by norm_num)
  | some j1 =>
    rw [hmi] at hres
    obtain ⟨hj1len, hth1, hlt1, -⟩ := hmain.2 j1 hres
    rw [hsrc] at hth1 hlt1
    have hj1e : tgts.getD j1 [] = [] := by
      by_contra hne
      rw [smRatio_nil] at hth1
      have hlz : ¬ (tgts.getD j1 []).length = 0 := by
        simpa [List.length_eq_zero] using hne
      rw [if_neg hlz] at hth1
      norm_num at hth1
    have hj1j0 : j1 = j0 := by
      rcases lt_trichotomy j1 j0 with h | h | h
      · exact absurd hj1e (hfirst j1 h)
      · exact h
      · exfalso
        have hc := hlt1 j0 h
        rw [hj0e, hj1e, smRatio_nil] at hc
        simp at hc
    rw [hj1j0]

/-- Witness for C3 at the concrete input: source `[""]`, targets
`["a", ""]`; the first empty target is at index 1 and the theorem maps
source 0 to it. -/
theorem empty_key_match_witness :
    0 < ([[]] : List (List Char)).length ∧
    ([[]] : List (List Char)).getD 0 [] = [] ∧
    1 < ([['a'], []] : List (List Char)).length ∧
    ([['a'], []] : List (List Char)).getD 1 [] = [] ∧
    (∀ j, j < 1 → ([['a'], []] : List (List Char)).getD j [] ≠ []) ∧
    match_items [[]] [['a'], []] (3/10) 0 = some 1 :=
  ⟨by decide, by decide, by decide, by decide,
    (by intro j hj; obtain rfl : j = 0 := Nat.lt_one_iff.mp hj; decide),
    empty_key_match [[]] [['a'], []] 0 1 (by decide) (by decide) (by decide) (by decide)
      (by intro j hj; obtain rfl : j = 0 := Nat.lt_one_iff.mp hj; decide)⟩

theorem mapIdxFrom_length (f : ℕ → α → β) :
    ∀ (l : List α) (n : ℕ), (mapIdxFrom f n l).length = l.length := by
  intro l
  induction l with
  | nil => intro n; rfl
  | cons a as ih => intro n; simp [mapIdxFrom, ih]

theorem mapIdxFrom_getElem? (f : ℕ → α → β) :
    ∀ (l : List α) (n i : ℕ), (mapIdxFrom f n l)[i]? = (l[i]?).map (f (n + i)) := by
  intro l
  induction l with
  | nil => intro n i; simp [mapIdxFrom]
  | cons a as ih =>
    intro n i
    cases i with
    | zero => simp [mapIdxFrom]
    | succ i' =>
      rw [mapIdxFrom]
      simp only [List.getElem?_cons_succ]
      rw [ih (n + 1) i']
      have harith : n + 1 + i' = n + (i' + 1) := by omega
      rw [harith]

theorem itemName_sPropRow (H : List HRow) (m : ℕ → Option ℕ) (i : ℕ) (r : SRow) :
    (sPropRow H m i r).itemName = r.itemName := by
  rw [sPropRow]
  cases m i with
  | none => rfl
  | some h => cases hH : H[h]? <;> simp [hH]

theorem itemName_applyOrderNo (r : SRow) : (applyOrderNo r).itemName = r.itemName := rfl

theorem itemName_applyOverrides (r : SRow) : (applyOverrides r).itemName = r.itemName := by
  rw [applyOverrides, ovCurrency, ovOrigin, ovPkg, ovCountry, ovService]
  split_ifs <;> rfl

theorem itemName_applyAddr (r : SRow) : (applyAddr r).itemName = r.itemName := by
  cases h : r.address <;> simp [applyAddr, h]

theorem itemName_applyPostal (r : SRow) : (applyPostal r).itemName = r.itemName := rfl

theorem sUpdated_length (H : List HRow) (S : List SRow) :
    (sUpdated H S).length = S.length := by
  simp [sUpdated, sPropagate, mapIdxFrom_length]

theorem sUpdated_itemName (H : List HRow) (S : List SRow) (i : ℕ) :
    ((sUpdated H S)[i]?).map SRow.itemName = (S[i]?).map SRow.itemName := by
  rw [sUpdated, sPropagate]
  simp only [List.getElem?_map, mapIdxFrom_getElem?]
  cases hS : S[i]? with
  | none => rfl
  | some r =>
    simp only [Option.map_some']
    rw [itemName_applyPostal, itemName_applyAddr, itemName_applyOverrides,
      itemName_applyOrderNo, itemName_sPropRow]

/-- C7: unmatched DR rows are untouched by propagation.  A DR row whose
index has no entry in the dr2h mapping keeps the original (uncleaned) order
item name and has missing product code and barcode. -/
theorem dr_unmatched (H : List HRow) (S : List SRow) (i : ℕ) (hi : i < S.length)
    (hnm : dr2hMap H S i = none) :
    (((runAll H S).dfDR).getD i drNil).prodName = (S.getD i sNil).itemName ∧
    (((runAll H S).dfDR).getD i drNil).hiveCode = vNone ∧
    (((runAll H S).dfDR).getD i drNil).barcode = vNone := by
  have hi5 : i < (sUpdated H S).length := by rw [sUpdated_length]; exact hi
  obtain ⟨r, hr⟩ : ∃ r, S[i]? = some r := ⟨S[i], List.getElem?_eq_getElem hi⟩
  obtain ⟨r5, hr5⟩ : ∃ r5, (sUpdated H S)[i]? = some r5 :=
    ⟨(sUpdated H S)[i], List.getElem?_eq_getElem hi5⟩
  have hnames : r5.itemName = r.itemName := by
    have h := sUpdated_itemName H S i
    rw [hr5, hr] at h
    simpa using h
  have hDR : ((runAll H S).dfDR)[i]? = some ⟨r5.orderNo, vNone, r5.itemName, r5.itemPcs, vNone⟩ := by
    show (drTable H S)[i]? = _
    rw [drTable, drPropagate, mapIdxFrom_getElem?]
    simp only [Nat.zero_add]
    rw [assembleDR, List.getElem?_map, hr5]
    simp [drPropRow, hnm]
  constructor
  · rw [List.getD_eq_getElem?_getD, hDR, List.getD_eq_getElem?_getD, hr]
    simpa using hnames
  constructor
  · rw [List.getD_eq_getElem?_getD, hDR]
    rfl
  · rw [List.getD_eq_getElem?_getD, hDR]
    rfl

theorem bestMatchAux_single_zero (th : ℚ) (src t : List Char)
    (hz : smRatio src t = 0) : bestMatchAux th src [t] 0 0 none = none := by
  rw [show bestMatchAux th src [t] 0 0 none
      = if th < smRatio src t ∧ (0 : ℚ) < smRatio src t then
          bestMatchAux th src [] 1 (smRatio src t) (some 0)
        else bestMatchAux th src [] 1 0 none from rfl, hz]
  rw [if_neg (fun hc => absurd hc.2 (lt_irrefl 0))]
  rfl

theorem match_items_single_zero (srcs tgts : List (List Char)) (s t : List Char) (th : ℚ)
    (hs : srcs = [s]) (ht : tgts = [t]) (hz : smRatio s t = 0) :
    match_items srcs tgts th 0 = none := by
  subst hs
  subst ht
  have h1 : match_items [s] [t] th 0 = bestMatchAux th s [t] 0 0 none := by
    simp [match_items]
  rw [h1]
  exact bestMatchAux_single_zero th s t hz

/-- Catalog row of the C7 witness: listing name `"xyz"`, all other cells
missing. -/
def hRowW : HRow := ⟨vStr ['x', 'y', 'z'], vNone, vNone, vNone, vNone⟩

/-- Order row of the C7 witness: item name `"abc"`, all other cells
missing. -/
def sRowW : SRow := { sNil with itemName := vStr ['a', 'b', 'c'] }

theorem smRatio_abc_xyz : smRatio ['a', 'b', 'c'] ['x', 'y', 'z'] = 0 := by
  have h : smMatches ['a', 'b', 'c'] ['x', 'y', 'z'] = 0 := by decide
  simp [smRatio, h]

theorem s2h_w_none : s2hMap [hRowW] [sRowW] 0 = none :=
  match_items_single_zero _ _ ['a', 'b', 'c'] ['x', 'y', 'z'] (3/10)
    (by decide) (by decide) smRatio_abc_xyz

theorem sup_w : sUpdated [hRowW] [sRowW]
    = [applyPostal (applyAddr (applyOverrides (applyOrderNo sRowW)))] := by
  have hrow : sPropRow [hRowW] (s2hMap [hRowW] [sRowW]) 0 sRowW = sRowW := by
    simp only [sPropRow, s2h_w_none]
  simp only [sUpdated, sPropagate, mapIdxFrom, List.map_cons, List.map_nil, hrow]

theorem dr2h_w_none : dr2hMap [hRowW] [sRowW] 0 = none := by
  rw [dr2hMap, sup_w]
  exact match_items_single_zero _ _ ['a', 'b', 'c'] ['x', 'y', 'z'] (3/10)
    (by decide) (by decide) smRatio_abc_xyz

/-- Witness for C7 at a concrete input: a one-row catalog named `"xyz"`
and a one-row order named `"abc"` do not match (ratio `0`), and the DR row
keeps the raw name with missing code and barcode. -/
theorem dr_unmatched_witness :
    0 < ([sRowW] : List SRow).length ∧
    dr2hMap [hRowW] [sRowW] 0 = none ∧
    ((((runAll [hRowW] [sRowW]).dfDR).getD 0 drNil).prodName
        = (([sRowW] : List SRow).getD 0 sNil).itemName ∧
      (((runAll [hRowW] [sRowW]).dfDR).getD 0 drNil).hiveCode = vNone ∧
      (((runAll [hRowW] [sRowW]).dfDR).getD 0 drNil).barcode = vNone) :=
  ⟨by decide, dr2h_w_none, dr_unmatched [hRowW] [sRowW] 0 (by decide) dr2h_w_none⟩

/-- Catalog row of the spec's end-to-end example: listing name
`"Premium Red Lipstick #001セット"`, product code `"P1"`, barcode `"B1"`. -/
def h1ex : HRow :=
  ⟨vStr ['P', 'r', 'e', 'm', 'i', 'u', 'm', ' ', 'R', 'e', 'd', ' ', 'L', 'i', 'p',
    's', 't', 'i', 'c', 'k', ' ', '#', '0', '0', '1', 'セ', 'ッ', 'ト'],
   vNone, vNone, vStr ['P', '1'], vStr ['B', '1']⟩

/-- Order row of the spec's end-to-end example: item name
`"【Premium Red Lipstick #001セット】"`, order number `"12345"`, quantity 2. -/
def s1ex : SRow :=
  { sNil with
    itemName := vStr ['【', 'P', 'r', 'e', 'm', 'i', 'u', 'm', ' ', 'R', 'e', 'd', ' ',
      'L', 'i', 'p', 's', 't', 'i', 'c', 'k', ' ', '#', '0', '0', '1', 'セ', 'ッ', 'ト', '】'],
    orderNo := vStr ['1', '2', '3', '4', '5'],
    itemPcs := vInt 2 }

theorem smRatio_nil_PRL :
    smRatio []
      ['P', 'r', 'e', 'm', 'i', 'u', 'm', 'R', 'e', 'd', 'L', 'i', 'p', 's', 't', 'i', 'c', 'k']
      = 0 := by
  rw [smRatio_nil, if_neg (by decide)]

theorem s2h_ex_none : s2hMap [h1ex] [s1ex] 0 = none :=
  match_items_single_zero _ _ []
    ['P', 'r', 'e', 'm', 'i', 'u', 'm', 'R', 'e', 'd', 'L', 'i', 'p', 's', 't', 'i', 'c', 'k']
    (3/10) (by decide) (by decide) smRatio_nil_PRL

/-- The updated order row of the example: prefixed order number, fixed
overrides (the row has three non-missing cells, so the density test
passes), postal-code sentinel, raw item name kept. -/
def s5ex : SRow :=
  { itemName := s1ex.itemName,
    orderNo := vStr ['8', '6', '1', '2', '3', '4', '5'],
    itemPcs := vInt 2,
    shopUrl := vNone,
    unitTotalPrice := vNone,
    serviceCode := vStr ['9', '9'],
    countryCode := vStr ['J', 'P'],
    pkg := vStr ['1'],
    itemOrigin := vStr ['K', 'R'],
    currency := vStr ['J', 'P', 'Y'],
    address := vNone,
    postal := vStr noPostal }

theorem sup_ex : sUpdated [h1ex] [s1ex] = [s5ex] := by
  have hrow : sPropRow [h1ex] (s2hMap [h1ex] [s1ex]) 0 s1ex = s1ex := by
    simp only [sPropRow, s2h_ex_none]
  simp only [sUpdated, sPropagate, mapIdxFrom, List.map_cons, List.map_nil, hrow]
  decide

theorem dr2h_ex_none : dr2hMap [h1ex] [s1ex] 0 = none := by
  rw [dr2hMap, sup_ex]
  exact match_items_single_zero _ _ []
    ['P', 'r', 'e', 'm', 'i', 'u', 'm', 'R', 'e', 'd', 'L', 'i', 'p', 's', 't', 'i', 'c', 'k']
    (3/10) (by decide) (by decide) smRatio_nil_PRL

theorem drTable_ex :
    drTable [h1ex] [s1ex]
      = [⟨vStr ['8', '6', '1', '2', '3', '4', '5'], vNone, s1ex.itemName, vInt 2, vNone⟩] := by
  rw [drTable, sup_ex]
  have hdr0 : assembleDR [s5ex]
      = [⟨vStr ['8', '6', '1', '2', '3', '4', '5'], vNone, s1ex.itemName, vInt 2, vNone⟩] := by
    decide
  rw [hdr0, drPropagate]
  have hrow : drPropRow [h1ex] (dr2hMap [h1ex] [s1ex]) 0
      (⟨vStr ['8', '6', '1', '2', '3', '4', '5'], vNone, s1ex.itemName, vInt 2, vNone⟩ : DRRow)
      = ⟨vStr ['8', '6', '1', '2', '3', '4', '5'], vNone, s1ex.itemName, vInt 2, vNone⟩ := by
    simp only [drPropRow, dr2h_ex_none]
  simp only [mapIdxFrom, hrow]

/-- Counterexample to C1 as stated: on the spec's own end-to-end example
the DR-pass matcher records no mapping at all (the cleaning pipeline first
strips `#001セット`, after which the whole order name is a `【...】` group and
cleans to the empty string, scoring `0` against the catalog key), so the DR
row does not receive product code `"P1"`, barcode `"B1"`, or the catalog
name. -/
theorem end_to_end_cex :
    dr2hMap [h1ex] [s1ex] 0 ≠ some 0 ∧
    ((drTable [h1ex] [s1ex]).getD 0 drNil).hiveCode ≠ vStr ['P', '1'] ∧
    ((drTable [h1ex] [s1ex]).getD 0 drNil).barcode ≠ vStr ['B', '1'] ∧
    ((drTable [h1ex] [s1ex]).getD 0 drNil).prodName ≠ h1ex.shipName := by
  refine ⟨?_, ?_, ?_, ?_⟩
  · rw [dr2h_ex_none]; simp
  · rw [drTable_ex]; decide
  · rw [drTable_ex]; decide
  · rw [drTable_ex]; decide

/-- C1 amended: on the example input the cleaned order name is empty, the
DR-pass matcher records no mapping, and the DR table's single row keeps the
raw order item name with missing product code and barcode; quantity 2 and
the prefixed order number are carried over from the order row. -/
theorem end_to_end_amended :
    clean_text (fillnaStr s1ex.itemName) = [] ∧
    dr2hMap [h1ex] [s1ex] 0 = none ∧
    (runAll [h1ex] [s1ex]).dfDR
      = [⟨vStr ['8', '6', '1', '2', '3', '4', '5'], vNone, s1ex.itemName, vInt 2, vNone⟩] :=
  ⟨by decide, dr2h_ex_none, drTable_ex⟩
